import Mathlib

/-!
Verification of the WellLog ingestion-and-retrieval core
(`backend/server.js`): the LAS header scan (curve discovery), the
data-section parser, the sample-store query, and the statistics path of
the interpretation endpoint.  JavaScript numbers are modelled by `ℚ`
extended with signed infinities (`JNum`); `NaN` outcomes of `parseFloat`
are modelled by `Option.none`.  Strings, token splitting, trimming and
name normalization follow the source line by line.
-/

namespace WellLog

/-- Whitespace characters relevant to the source: the lines are produced
by splitting on a newline and then trimmed, and tokens are produced by
splitting on runs of whitespace (JavaScript regular expression s-class,
ASCII part). -/
def isWsChar (c : Char) : Bool :=
  c = ' ' || c = '\t' || c = '\n' || c = '\r' || c = '\x0b' || c = '\x0c'

/-- Model of the JavaScript string trim used on every line: drop leading
and trailing whitespace. -/
def jsTrim (s : String) : String :=
  ⟨((s.data.dropWhile isWsChar).reverse.dropWhile isWsChar).reverse⟩

/-- Accumulator loop for the whitespace split: walk the characters,
closing the current token at each whitespace character and keeping only
nonempty tokens. -/
def splitWsAux : List Char → List Char → List String
  | [], cur => if cur.isEmpty then [] else [⟨cur.reverse⟩]
  | c :: cs, cur =>
    if isWsChar c then
      (if cur.isEmpty then [] else [⟨cur.reverse⟩]) ++ splitWsAux cs []
    else splitWsAux cs (c :: cur)

/-- Model of splitting a line on runs of whitespace.  The source uses
either a whitespace split on an already-trimmed line (header scan) or a
whitespace split followed by dropping empty tokens (data lines); on
trimmed lines the two coincide, and both are modelled by splitting at
every whitespace character and discarding empty pieces. -/
def jsSplitWs (s : String) : List String :=
  splitWsAux s.data []

/-- Accumulator loop splitting a document into lines at each newline
character, keeping empty lines. -/
def splitLinesAux : List Char → List Char → List String
  | [], cur => [⟨cur.reverse⟩]
  | c :: cs, cur =>
    if c = '\n' then ⟨cur.reverse⟩ :: splitLinesAux cs []
    else splitLinesAux cs (c :: cur)

/-- Model of splitting the file content on the newline character. -/
def splitLines (content : String) : List String :=
  splitLinesAux content.data []

/-- Prefix test on strings, modelling the JavaScript startsWith. -/
def strStartsWith (s pre : String) : Bool :=
  pre.data.isPrefixOf s.data

/-- Substring containment, modelling the JavaScript string includes
method. -/
def strContains (hay needle : String) : Bool :=
  hay.data.tails.any (fun t => needle.data.isPrefixOf t)

/-- Curve-name normalization: keep only ASCII alphanumerics, modelling
the replacement of every character outside A-Z, a-z, 0-9 by nothing. -/
def normalizeName (s : String) : String :=
  ⟨s.data.filter Char.isAlphanum⟩

/-- A JavaScript number that is not NaN: a finite rational or one of the
two signed infinities.  `parseFloat` results that are NaN are modelled
by `none` at use sites, matching the isNaN guards in the source. -/
inductive JNum where
  | negInf
  | fin (q : ℚ)
  | posInf
deriving DecidableEq

/-- Numeric order on non-NaN JavaScript numbers. -/
def jle : JNum → JNum → Bool
  | JNum.negInf, _ => true
  | _, JNum.posInf => true
  | JNum.fin a, JNum.fin b => decide (a ≤ b)
  | JNum.posInf, JNum.fin _ => false
  | JNum.posInf, JNum.negInf => false
  | JNum.fin _, JNum.negInf => false

/-- Model of Math.min on non-NaN numbers. -/
def jmin (a b : JNum) : JNum := if jle a b then a else b

/-- Model of Math.max on non-NaN numbers. -/
def jmax (a b : JNum) : JNum := if jle a b then b else a

/-- Finite value of a JNum, defaulting to 0 on the infinities; used only
to state properties at finite points. -/
def JNum.toQ : JNum → ℚ
  | JNum.fin q => q
  | _ => 0

/-- Value of a list of decimal digit characters. -/
def digitsToNat (ds : List Char) : Nat :=
  ds.foldl (fun n c => 10 * n + (c.toNat - 48)) 0

/-- Model of the JavaScript parseFloat applied to a whitespace-free
token: an optional sign, then either the literal Infinity or a decimal
significand (integer digits, optional fraction) with an optional
exponent part; the longest valid prefix is converted and the rest of the
token is ignored; if no prefix is valid the result is NaN, modelled as
`none`. -/
def parseFloat (s : String) : Option JNum :=
  let cs := s.data
  let signed :=
    match cs with
    | '+' :: r => (false, r)
    | '-' :: r => (true, r)
    | r => (false, r)
  let neg := signed.1
  let cs1 := signed.2
  if ("Infinity".data).isPrefixOf cs1 then
    some (if neg then JNum.negInf else JNum.posInf)
  else
    let ipr := cs1.span Char.isDigit
    let ip := ipr.1
    let fpr :=
      match ipr.2 with
      | '.' :: r => r.span Char.isDigit
      | r => (([] : List Char), r)
    let fp := fpr.1
    if ip.isEmpty && fp.isEmpty then none
    else
      let exp : Int :=
        match fpr.2 with
        | e :: r3 =>
          if e = 'e' || e = 'E' then
            let esigned :=
              match r3 with
              | '+' :: r => (false, r)
              | '-' :: r => (true, r)
              | r => (false, r)
            let eds := (esigned.2.span Char.isDigit).1
            if eds.isEmpty then 0
            else if esigned.1 then -(digitsToNat eds : Int) else (digitsToNat eds : Int)
          else 0
        | [] => 0
      let mant : ℚ := (digitsToNat ip : ℚ) + (digitsToNat fp : ℚ) / ((10 : ℚ) ^ fp.length)
      let v : ℚ := mant * (10 : ℚ) ^ exp
      some (JNum.fin (if neg then -v else v))

/-- A line whose trimmed form begins the ASCII data section.  The source
tests the two literal markers tilde-A and tilde-ASCII, in both the
header scan break and the data-start scan. -/
def isDataStartLine (l : String) : Bool :=
  strStartsWith (jsTrim l) "~A" || strStartsWith (jsTrim l) "~ASCII"

/-- Curve-definition candidate extracted from one trimmed header line:
the line must contain a dot somewhere, must not be a comment (leading
hash), must split into at least two whitespace tokens, the first token
must be nonempty and must not contain the raw substring DEPT; the
candidate is the alphanumeric normalization of the first token. -/
def headerCandidate (line : String) : Option String :=
  if strContains line "." && !(strStartsWith line "#") then
    match jsSplitWs line with
    | p0 :: _ :: _ =>
      if p0 != "" && !(strContains p0 "DEPT") then some (normalizeName p0) else none
    | _ => none
  else none

/-- Header scan loop: walk lines accumulating discovered curve names,
stopping at the first data-section marker line; a candidate already in
the accumulator is not added again. -/
def discoverCurvesGo : List String → List String → List String
  | [], acc => acc
  | l :: ls, acc =>
    if strStartsWith (jsTrim l) "~A" || strStartsWith (jsTrim l) "~ASCII" then acc
    else
      match headerCandidate (jsTrim l) with
      | some name =>
        if name ∈ acc then discoverCurvesGo ls acc
        else discoverCurvesGo ls (acc ++ [name])
      | none => discoverCurvesGo ls acc

/-- Curve discovery: the header scan is bounded to the first 200 lines
of the file. -/
def discoverCurves (lines : List String) : List String :=
  discoverCurvesGo (lines.take 200) []

/-- Scan for the first data-section marker line, returning the index
just after it; when no marker exists the result is the initial value 0,
so data parsing then starts at the first line. -/
def findDataStartAux : List String → Nat → Nat
  | [], _ => 0
  | l :: ls, i => if isDataStartLine l then i + 1 else findDataStartAux ls (i + 1)

/-- Index of the first data line, as computed by the source scan. -/
def findDataStart (lines : List String) : Nat :=
  findDataStartAux lines 0

/-- One stored measurement fact: depth, curve name, value. -/
structure Sample where
  depth : JNum
  curveName : String
  value : JNum
deriving DecidableEq

/-- Emission loop over the tokens after the depth token.  The token at
curve index k is kept only when the catalog has a nonempty name at
position k (the source truthiness test on the indexed element, which is
false both out of range and on the empty string) and the token parses as
a non-NaN number. -/
def emitSamples (curves : List String) (depth : JNum) : Nat → List String → List Sample
  | _, [] => []
  | k, t :: ts =>
    (if curves.getD k "" ≠ "" then
      match parseFloat t with
      | some v => [⟨depth, curves.getD k "", v⟩]
      | none => []
    else []) ++ emitSamples curves depth (k + 1) ts

/-- Processing of one data line: trim; skip blank and comment lines;
tokenize; require at least two tokens; parse the first token as the
depth and skip the whole line when it is NaN; otherwise emit the samples
of the remaining tokens and report the depth for the range update. -/
def parseLine (curves : List String) (l : String) : List Sample × Option JNum :=
  if jsTrim l == "" || strStartsWith (jsTrim l) "#" then ([], none)
  else
    match jsSplitWs (jsTrim l) with
    | v0 :: v1 :: rest =>
      match parseFloat v0 with
      | none => ([], none)
      | some d => (emitSamples curves d 0 (v1 :: rest), some d)
    | _ => ([], none)

/-- Fold step over one data line: a line with a valid depth appends its
samples and updates the running depth minimum and maximum; a line
without one leaves the state unchanged. -/
def stepState (st : List Sample × JNum × JNum) (r : List Sample × Option JNum) :
    List Sample × JNum × JNum :=
  match r with
  | (ss, some d) => (st.1 ++ ss, jmin st.2.1 d, jmax st.2.2 d)
  | (_, none) => st

/-- Data-section loop over the remaining lines. -/
def dataFold (curves : List String) :
    List Sample × JNum × JNum → List String → List Sample × JNum × JNum
  | st, [] => st
  | st, l :: ls => dataFold curves (stepState st (parseLine curves l)) ls

/-- Result of parsing one LAS document. -/
structure ParseResult where
  curves : List String
  data : List Sample
  minDepth : JNum
  maxDepth : JNum

/-- Whole-file parse: split the content on newlines, discover the curve
catalog from the bounded header prefix, locate the data section, and
fold the data lines starting from depth bounds positive and negative
infinity (the source initial values). -/
def parseLASContent (content : String) : ParseResult :=
  let lines := splitLines content
  let curves := discoverCurves lines
  let st := dataFold curves ([], JNum.posInf, JNum.negInf) (lines.drop (findDataStart lines))
  ⟨curves, st.1, st.2.1, st.2.2⟩

/-- One row of the sample store (the well-data table). -/
structure Row where
  fileId : Nat
  depth : JNum
  curveName : String
  value : JNum
deriving DecidableEq

/-- Ordering relation used by the query result sort (order by depth). -/
def byDepth (a b : Row) : Prop := jle a.depth b.depth = true

instance : DecidableRel byDepth := fun a b =>
  inferInstanceAs (Decidable (jle a.depth b.depth = true))

/-- Model of the data query: select the rows of the file whose curve
name is among the requested names and whose depth lies between the two
bounds inclusively (the SQL BETWEEN), ordered by depth ascending. -/
def querySamples (store : List Row) (fid : Nat) (names : List String)
    (dmin dmax : JNum) : List Row :=
  List.insertionSort byDepth
    (store.filter (fun r =>
      r.fileId == fid && names.contains r.curveName
        && jle dmin r.depth && jle r.depth dmax))

/-- Rounding of a number to two decimal places as a display string,
modelling toFixed with argument 2: the nearest multiple of one
hundredth, ties toward positive infinity, printed with exactly two
fraction digits. -/
def toFixed2 (q : ℚ) : String :=
  let n : Int := round (q * 100)
  let sign := if n < 0 then "-" else ""
  let m := n.natAbs
  sign ++ toString (m / 100) ++ "." ++
    (if m % 100 < 10 then "0" ++ toString (m % 100) else toString (m % 100))

/-- Display string of a possibly infinite number, matching toFixed on
the JavaScript infinities. -/
def toFixed2J : JNum → String
  | JNum.fin q => toFixed2 q
  | JNum.posInf => "Infinity"
  | JNum.negInf => "-Infinity"

/-- Arithmetic mean of the values of one curve, as computed by the
interpretation endpoint (sum divided by the count). -/
def avgOf (vs : List ℚ) : ℚ := vs.sum / (vs.length : ℚ)

/-- Population variance of the values of one curve: the mean of the
squared deviations, divided by the count N (not N minus one).  The
displayed standard deviation of the source is the square root of this
quantity rounded to two decimals. -/
def popVar (vs : List ℚ) : ℚ :=
  ((vs.map (fun v => (v - avgOf vs) ^ 2)).sum) / (vs.length : ℚ)

/-- Minimum of a value list, modelling Math.min spread over the list
(empty list gives positive infinity). -/
def minOf (vs : List ℚ) : JNum :=
  vs.foldl (fun a v => jmin a (JNum.fin v)) JNum.posInf

/-- Maximum of a value list, modelling Math.max spread over the list
(empty list gives negative infinity). -/
def maxOf (vs : List ℚ) : JNum :=
  vs.foldl (fun a v => jmax a (JNum.fin v)) JNum.negInf

/-- Per-curve statistics block of the interpretation response.  The
average, minimum and maximum fields are the display strings produced by
rounding to two decimals; the standard-deviation display of the source
is the rounding of the square root of `varianceQ`, kept here as the
exact rational radicand; `points` is the sample count. -/
structure CurveStats where
  average : String
  minimum : String
  maximum : String
  varianceQ : ℚ
  points : Nat
deriving DecidableEq

/-- Statistics of one value list, as computed per curve by the
interpretation endpoint. -/
def summarize (vs : List ℚ) : CurveStats :=
  ⟨toFixed2 (avgOf vs), toFixed2J (minOf vs), toFixed2J (maxOf vs), popVar vs, vs.length⟩

/-- Grouping step of the interpretation endpoint: append a row value and
its depth to the entry of its curve, creating the entry at the end on
first sight (JavaScript object keys preserve insertion order). -/
def addRow : List (String × List ℚ × List ℚ) → String → ℚ → ℚ →
    List (String × List ℚ × List ℚ)
  | [], name, d, v => [(name, ([v], [d]))]
  | (k, vs, ds) :: rest, name, d, v =>
    if k == name then (k, vs ++ [v], ds ++ [d]) :: rest
    else (k, vs, ds) :: addRow rest name d v

/-- Group the queried rows (curve name, depth, value) by curve in
first-seen key order, accumulating per curve the value list and the
depth list in row order. -/
def groupRows (rows : List (String × ℚ × ℚ)) : List (String × List ℚ × List ℚ) :=
  rows.foldl (fun m r => addRow m r.1 r.2.1 r.2.2) []

/-- Response of the interpretation endpoint: per-curve statistics and a
recommendation list. -/
structure InterpretResult where
  interpretations : List (String × CurveStats)
  recommendations : List String

/-- Statistics path of the interpretation endpoint over the queried rows
(curve name, depth, value): group by curve and summarize each group.
The recommendation list is declared as an empty array in the handler and
returned as is: no statement of the handler ever appends to it. -/
def interpret (rows : List (String × ℚ × ℚ)) : InterpretResult :=
  ⟨(groupRows rows).map (fun e => (e.1, summarize e.2.1)), []⟩

/-- Rational rendering of the high-peak condition of the specification,
namely that the maximum exceed the average plus twice the population
standard deviation: since the standard deviation is the nonnegative
square root of `popVar`, the condition is equivalent to the maximum
exceeding the average together with the squared gap exceeding four times
the variance (see `highPeak_squared_iff`). -/
def specHighPeak (vs : List ℚ) : Prop :=
  avgOf vs < (maxOf vs).toQ ∧ 4 * popVar vs < ((maxOf vs).toQ - avgOf vs) ^ 2

instance (vs : List ℚ) : Decidable (specHighPeak vs) :=
  inferInstanceAs (Decidable (_ ∧ _))

/-- Truncation of the line list at the first data-section marker: the
region the header scan actually visits. -/
def headerLinesOf : List String → List String
  | [] => []
  | l :: ls => if isDataStartLine l then [] else l :: headerLinesOf ls

/-- Every accepted curve-definition candidate of the bounded header
region, normalized, in order of appearance and with repetitions. -/
def headerCandidates (lines : List String) : List String :=
  (headerLinesOf (lines.take 200)).filterMap (fun l => headerCandidate (jsTrim l))

/-- First-seen deduplication against an accumulator: keep the first
occurrence of each name, in order. -/
def dedupFS : List String → List String → List String
  | acc, [] => acc
  | acc, x :: xs => if x ∈ acc then dedupFS acc xs else dedupFS (acc ++ [x]) xs

/-- Count, over the tokens after the depth token starting at curve index
k, of the tokens that are dropped: those whose catalog position holds no
nonempty curve name or that fail numeric parsing. -/
def badCountFrom (curves : List String) : Nat → List String → Nat
  | _, [] => 0
  | k, t :: ts =>
    (if curves.getD k "" = "" ∨ parseFloat t = none then 1 else 0)
      + badCountFrom curves (k + 1) ts

/-- Count of dropped non-depth tokens of one data line. -/
def badCount (curves : List String) (ts : List String) : Nat :=
  badCountFrom curves 0 ts

/-! Helper lemmas. -/

theorem jle_total (a b : JNum) : jle a b = true ∨ jle b a = true := by
  cases a <;> cases b <;> simp [jle]
  exact le_total _ _

theorem jle_trans {a b c : JNum} (h1 : jle a b = true) (h2 : jle b c = true) :
    jle a c = true := by
  cases a <;> cases b <;> cases c <;> simp [jle] at *
  exact le_trans h1 h2

instance : IsTotal Row byDepth :=
  ⟨fun a b => jle_total a.depth b.depth⟩

instance : IsTrans Row byDepth :=
  ⟨fun _ _ _ h1 h2 => jle_trans h1 h2⟩

theorem emitSamples_length (curves : List String) (d : JNum) :
    ∀ (ts : List String) (k : Nat),
      (emitSamples curves d k ts).length + badCountFrom curves k ts = ts.length := by
  intro ts
  induction ts with
  | nil => intro k; rfl
  | cons t ts ih =>
    intro k
    have hrec := ih (k + 1)
    show ((if curves.getD k "" ≠ "" then
            match parseFloat t with
            | some v => [(⟨d, curves.getD k "", v⟩ : Sample)]
            | none => []
          else []) ++ emitSamples curves d (k + 1) ts).length
        + ((if curves.getD k "" = "" ∨ parseFloat t = none then 1 else 0)
            + badCountFrom curves (k + 1) ts) = (t :: ts).length
    by_cases hc : curves.getD k "" = ""
    · rw [if_neg (not_not_intro hc), if_pos (Or.inl hc)]
      simp only [List.nil_append, List.length_cons]
      omega
    · cases hp : parseFloat t with
      | none =>
        rw [if_pos hc, if_pos (Or.inr rfl)]
        simp
        omega
      | some v =>
        rw [if_pos hc, if_neg (fun hx => hx.elim hc (fun h2 => Option.noConfusion h2))]
        simp
        omega

theorem emitSamples_mem (curves : List String) (d : JNum) :
    ∀ (ts : List String) (k : Nat) (s : Sample), s ∈ emitSamples curves d k ts →
      s.depth = d ∧ s.curveName ≠ ""
        ∧ ∃ i, i < ts.length ∧ curves.getD (k + i) "" = s.curveName
            ∧ parseFloat (ts.getD i "") = some s.value := by
  intro ts
  induction ts with
  | nil => intro k s hs; simp [emitSamples] at hs
  | cons t ts ih =>
    intro k s hs
    have hs2 : s ∈ (if curves.getD k "" ≠ "" then
            match parseFloat t with
            | some v => [(⟨d, curves.getD k "", v⟩ : Sample)]
            | none => []
          else []) ++ emitSamples curves d (k + 1) ts := hs
    rw [List.mem_append] at hs2
    have htail : s ∈ emitSamples curves d (k + 1) ts →
        s.depth = d ∧ s.curveName ≠ ""
          ∧ ∃ i, i < (t :: ts).length ∧ curves.getD (k + i) "" = s.curveName
              ∧ parseFloat ((t :: ts).getD i "") = some s.value := by
      intro hmem
      obtain ⟨hd2, hn, i, hi, hcn, hv⟩ := ih (k + 1) s hmem
      refine ⟨hd2, hn, i + 1, by simp; omega, ?_, ?_⟩
      · have hix : k + (i + 1) = k + 1 + i := by omega
        rw [hix]
        exact hcn
      · rw [List.getD_cons_succ]
        exact hv
    rcases hs2 with hs2 | hs2
    · by_cases hc : curves.getD k "" = ""
      · rw [if_neg (not_not_intro hc)] at hs2
        exact absurd hs2 (List.not_mem_nil s)
      · rw [if_pos hc] at hs2
        cases hp : parseFloat t with
        | none =>
          rw [hp] at hs2
          exact absurd hs2 (List.not_mem_nil s)
        | some v =>
          rw [hp] at hs2
          have hseq : s = ⟨d, curves.getD k "", v⟩ := by simpa using hs2
          subst hseq
          refine ⟨rfl, hc, 0, by simp, by simp, ?_⟩
          rw [List.getD_cons_zero]
          exact hp
    · exact htail hs2

theorem parseLine_eq (curves : List String) (l v0 v1 : String) (rest : List String)
    (d : JNum) (hsplit : jsSplitWs (jsTrim l) = v0 :: v1 :: rest)
    (hhash : strStartsWith (jsTrim l) "#" = false)
    (hd : parseFloat v0 = some d) :
    parseLine curves l = (emitSamples curves d 0 (v1 :: rest), some d) := by
  have hne : (jsTrim l == "") = false := by
    refine beq_eq_false_iff_ne.mpr ?_
    intro h0
    rw [h0] at hsplit
    exact absurd hsplit (by intro hx; exact List.noConfusion hx)
  unfold parseLine
  rw [hne, hhash, hsplit]
  show (match parseFloat v0 with
      | none => (([] : List Sample), (none : Option JNum))
      | some d => (emitSamples curves d 0 (v1 :: rest), some d))
    = (emitSamples curves d 0 (v1 :: rest), some d)
  rw [hd]

theorem parseLine_none (curves : List String) (l : String)
    (h : ∀ v0 rest, jsSplitWs (jsTrim l) = v0 :: rest → rest = [] ∨ parseFloat v0 = none) :
    parseLine curves l = ([], none) := by
  unfold parseLine
  split
  · rfl
  · rcases hsp : jsSplitWs (jsTrim l) with _ | ⟨v0, _ | ⟨v1, rest2⟩⟩
    · rfl
    · rfl
    · show (match parseFloat v0 with
          | none => (([] : List Sample), (none : Option JNum))
          | some d => (emitSamples curves d 0 (v1 :: rest2), some d))
        = ([], none)
      rcases h v0 (v1 :: rest2) hsp with hc | hc
      · exact absurd hc (by simp)
      · rw [hc]

theorem dataFold_skip (curves : List String) (st : List Sample × JNum × JNum)
    (l : String) (ls : List String) (h : parseLine curves l = ([], none)) :
    dataFold curves st (l :: ls) = dataFold curves st ls := by
  show dataFold curves (stepState st (parseLine curves l)) ls = dataFold curves st ls
  rw [h]
  rfl

theorem dataFold_none (curves : List String) :
    ∀ (ls : List String) (st : List Sample × JNum × JNum),
      (∀ l ∈ ls, (parseLine curves l).2 = none) → dataFold curves st ls = st := by
  intro ls
  induction ls with
  | nil => intro st _; rfl
  | cons l ls ih =>
    intro st h
    have hl : (parseLine curves l).2 = none := h l (by simp)
    have hstep : stepState st (parseLine curves l) = st := by
      rcases hp : parseLine curves l with ⟨ss, o⟩
      rw [hp] at hl
      simp at hl
      rw [hl]
      rfl
    show dataFold curves (stepState st (parseLine curves l)) ls = st
    rw [hstep]
    exact ih st (fun x hx => h x (by simp [hx]))

theorem parseLine_no_empty_name (curves : List String) (l : String) (s : Sample)
    (hs : s ∈ (parseLine curves l).1) : s.curveName ≠ "" := by
  unfold parseLine at hs
  split at hs
  · simp at hs
  · rcases hsp : jsSplitWs (jsTrim l) with _ | ⟨v0, _ | ⟨v1, rest2⟩⟩ <;> rw [hsp] at hs
    · simp at hs
    · simp at hs
    · have hs2 : s ∈ (match parseFloat v0 with
          | none => (([] : List Sample), (none : Option JNum))
          | some d => (emitSamples curves d 0 (v1 :: rest2), some d)).1 := hs
      cases hd : parseFloat v0 <;> rw [hd] at hs2
      · simp at hs2
      · exact (emitSamples_mem curves _ (v1 :: rest2) 0 s (by simpa using hs2)).2.1

theorem dataFold_no_empty_name (curves : List String) :
    ∀ (ls : List String) (st : List Sample × JNum × JNum),
      (∀ s ∈ st.1, s.curveName ≠ "") →
      ∀ s ∈ (dataFold curves st ls).1, s.curveName ≠ "" := by
  intro ls
  induction ls with
  | nil => intro st h; exact h
  | cons l ls ih =>
    intro st h
    show ∀ s ∈ (dataFold curves (stepState st (parseLine curves l)) ls).1, s.curveName ≠ ""
    refine ih _ ?_
    intro s hs
    rcases hp : parseLine curves l with ⟨ss, o⟩
    rw [hp] at hs
    cases o with
    | none => exact h s hs
    | some dep =>
      simp only [stepState, List.mem_append] at hs
      rcases hs with hs | hs
      · exact h s hs
      · refine parseLine_no_empty_name curves l s ?_
        rw [hp]
        exact hs

theorem findDataStartAux_append (l : String) (post : List String)
    (hl : isDataStartLine l = true) :
    ∀ (pre : List String) (i : Nat), (∀ p ∈ pre, isDataStartLine p = false) →
      findDataStartAux (pre ++ l :: post) i = i + pre.length + 1 := by
  intro pre
  induction pre with
  | nil =>
    intro i _
    show findDataStartAux (l :: post) i = i + 0 + 1
    unfold findDataStartAux
    rw [hl]
    simp
  | cons p pre ih =>
    intro i hpre
    have hp : isDataStartLine p = false := hpre p (by simp)
    show findDataStartAux (p :: (pre ++ l :: post)) i = i + (p :: pre).length + 1
    unfold findDataStartAux
    rw [hp]
    simp only [Bool.false_eq_true, if_false]
    rw [ih (i + 1) (fun x hx => hpre x (by simp [hx]))]
    simp
    omega

theorem discoverCurvesGo_eq :
    ∀ (ls acc : List String),
      discoverCurvesGo ls acc =
        dedupFS acc ((headerLinesOf ls).filterMap (fun l => headerCandidate (jsTrim l))) := by
  intro ls
  induction ls with
  | nil => intro acc; rfl
  | cons l ls ih =>
    intro acc
    show (if isDataStartLine l = true then acc
          else match headerCandidate (jsTrim l) with
            | some name =>
              if name ∈ acc then discoverCurvesGo ls acc
              else discoverCurvesGo ls (acc ++ [name])
            | none => discoverCurvesGo ls acc) = _
    by_cases hm : isDataStartLine l = true
    · rw [if_pos hm]
      unfold headerLinesOf
      rw [if_pos hm]
      rfl
    · rw [if_neg hm]
      unfold headerLinesOf
      rw [if_neg hm]
      rw [List.filterMap_cons]
      cases hc : headerCandidate (jsTrim l) with
      | none => exact ih acc
      | some name =>
        show (if name ∈ acc then discoverCurvesGo ls acc
              else discoverCurvesGo ls (acc ++ [name]))
            = dedupFS acc
                (name :: (headerLinesOf ls).filterMap (fun l => headerCandidate (jsTrim l)))
        unfold dedupFS
        by_cases hmem : name ∈ acc
        · rw [if_pos hmem, if_pos hmem]
          exact ih acc
        · rw [if_neg hmem, if_neg hmem]
          exact ih (acc ++ [name])

theorem dedupFS_nodup :
    ∀ (xs acc : List String), acc.Nodup → (dedupFS acc xs).Nodup := by
  intro xs
  induction xs with
  | nil => intro acc h; exact h
  | cons x xs ih =>
    intro acc h
    unfold dedupFS
    by_cases hx : x ∈ acc
    · rw [if_pos hx]; exact ih acc h
    · rw [if_neg hx]
      refine ih (acc ++ [x]) ?_
      simp [List.nodup_append, h, hx]

theorem dedupFS_mem :
    ∀ (xs acc : List String) (c : String), c ∈ dedupFS acc xs → c ∈ acc ∨ c ∈ xs := by
  intro xs
  induction xs with
  | nil => intro acc c h; exact Or.inl h
  | cons x xs ih =>
    intro acc c h
    unfold dedupFS at h
    by_cases hx : x ∈ acc
    · rw [if_pos hx] at h
      rcases ih acc c h with h | h
      · exact Or.inl h
      · exact Or.inr (by simp [h])
    · rw [if_neg hx] at h
      rcases ih (acc ++ [x]) c h with h | h
      · rcases List.mem_append.mp h with h | h
        · exact Or.inl h
        · exact Or.inr (by simp at h; simp [h])
      · exact Or.inr (by simp [h])

theorem headerCandidate_shape (line c : String) (h : headerCandidate line = some c) :
    ∃ raw, strContains raw "DEPT" = false ∧ c = normalizeName raw := by
  unfold headerCandidate at h
  split at h
  · rcases hsp : jsSplitWs line with _ | ⟨p0, _ | ⟨p1, rest2⟩⟩ <;> rw [hsp] at h
    · simp at h
    · simp at h
    · have h2 : (if (p0 != "" && !(strContains p0 "DEPT")) = true
          then some (normalizeName p0) else none) = some c := h
      by_cases hcond : (p0 != "" && !(strContains p0 "DEPT")) = true
      · rw [if_pos hcond] at h2
        refine ⟨p0, ?_, ((Option.some.injEq _ _).mp h2).symm⟩
        have hb := ((Bool.and_eq_true _ _).mp hcond).2
        simpa using hb
      · rw [if_neg hcond] at h2
        exact absurd h2 (by simp)
  · exact absurd h (by simp)

/-- Equivalence over the reals between the squared high-peak condition
used in `specHighPeak` and the condition of the specification stated
with the standard deviation s, the nonnegative square root of the
variance v. -/
theorem highPeak_squared_iff (a m v s : ℝ) (hs : 0 ≤ s) (hv : s ^ 2 = v) :
    (a < m ∧ 4 * v < (m - a) ^ 2) ↔ a + 2 * s < m := by
  constructor
  · rintro ⟨h1, h2⟩
    nlinarith [sq_nonneg (m - a - 2 * s), sq_nonneg (m - a + 2 * s)]
  · intro h
    constructor
    · nlinarith
    · nlinarith

/-! Claim theorems. -/

/-- Claim C1: the statistics path of the interpretation endpoint is
claimed to emit a high-peak recommendation exactly when a curve maximum
exceeds average plus two standard deviations.  The handler, however,
declares its recommendation array empty and never appends to it: at the
window below, the curve GR satisfies the high-peak condition (maximum
100 against average 17.5 and variance 1361.25, so average plus two
standard deviations is about 91.3), yet the response carries no
recommendation at all. -/
theorem claim_C1_no_recommendation_despite_high_peak :
    specHighPeak [1, 1, 1, 1, 1, 100]
    ∧ (interpret [("GR", 1, 1), ("GR", 2, 1), ("GR", 3, 1), ("GR", 4, 1),
        ("GR", 5, 1), ("GR", 6, 100)]).interpretations
        = [("GR", summarize [1, 1, 1, 1, 1, 100])]
    ∧ (summarize [1, 1, 1, 1, 1, 100]).average = "17.50"
    ∧ (summarize [1, 1, 1, 1, 1, 100]).maximum = "100.00"
    ∧ (summarize [1, 1, 1, 1, 1, 100]).varianceQ = 5445 / 4
    ∧ (interpret [("GR", 1, 1), ("GR", 2, 1), ("GR", 3, 1), ("GR", 4, 1),
        ("GR", 5, 1), ("GR", 6, 100)]).recommendations = [] :=
  ⟨of_decide_eq_true (by with_unfolding_all rfl),
   by with_unfolding_all rfl,
   by with_unfolding_all rfl,
   by with_unfolding_all rfl,
   by with_unfolding_all rfl,
   rfl⟩

/-- Claim C2, counterexample: the DEPT exclusion is applied to the raw
header token before normalization, so the token DE.PT — whose raw form
does not contain DEPT but whose normalized form is exactly DEPT — is
accepted into the catalog, refuting the claim that every candidate whose
normalized name contains DEPT is excluded. -/
theorem claim_C2_counterexample :
    discoverCurves ["DE.PT unit"] = ["DEPT"]
    ∧ strContains (normalizeName "DE.PT") "DEPT" = true
    ∧ strContains "DE.PT" "DEPT" = false := by decide

/-- Claim C2, amended: curve discovery returns the accepted candidates
in first-seen order with no duplicates (the dedupFS decomposition), and
every returned name is the normalization of a raw token that does not
contain DEPT — the exclusion filters the raw token, not the normalized
name. -/
theorem claim_C2_amended (lines : List String) :
    (discoverCurves lines).Nodup
    ∧ discoverCurves lines = dedupFS [] (headerCandidates lines)
    ∧ ∀ c ∈ discoverCurves lines,
        ∃ raw, strContains raw "DEPT" = false ∧ c = normalizeName raw := by
  have heq : discoverCurves lines = dedupFS [] (headerCandidates lines) := by
    show discoverCurvesGo (lines.take 200) [] = _
    rw [discoverCurvesGo_eq]
    rfl
  refine ⟨?_, heq, ?_⟩
  · rw [heq]
    exact dedupFS_nodup _ _ List.nodup_nil
  · intro c hc
    rw [heq] at hc
    rcases dedupFS_mem _ _ c hc with hx | hx
    · exact absurd hx (List.not_mem_nil c)
    · obtain ⟨l, _, hcand⟩ := List.mem_filterMap.mp hx
      exact headerCandidate_shape (jsTrim l) c hcand

/-- Witness for the amended claim C2 at a concrete header. -/
theorem claim_C2_amended_witness :
    ∃ raw, strContains raw "DEPT" = false ∧ "GRAPI" = normalizeName raw :=
  (claim_C2_amended ["GR.API u"]).2.2 "GRAPI" (by decide)

/-- Claim C3: the per-curve statistics use the population standard
deviation (sum of squared deviations divided by N) and report average,
minimum and maximum rounded to two decimals as strings; on the values
10, 20, 30, 1000 the average is 265.00, the minimum 10.00, the maximum
1000.00, and the variance is exactly 180125, whose square root lies
between 424.405 and 424.415 and therefore displays as 424.41 (a
sample-style division by N minus one would give 720500 over 3 instead of
180125). -/
theorem claim_C3_population_statistics :
    (summarize [10, 20, 30, 1000]).average = "265.00"
    ∧ (summarize [10, 20, 30, 1000]).minimum = "10.00"
    ∧ (summarize [10, 20, 30, 1000]).maximum = "1000.00"
    ∧ (summarize [10, 20, 30, 1000]).points = 4
    ∧ (summarize [10, 20, 30, 1000]).varianceQ = 180125
    ∧ ((424405 : ℚ) / 1000) ^ 2 ≤ (summarize [10, 20, 30, 1000]).varianceQ
    ∧ (summarize [10, 20, 30, 1000]).varianceQ < ((424415 : ℚ) / 1000) ^ 2 :=
  ⟨by with_unfolding_all rfl,
   by with_unfolding_all rfl,
   by with_unfolding_all rfl,
   rfl,
   by with_unfolding_all rfl,
   of_decide_eq_true (by with_unfolding_all rfl),
   of_decide_eq_true (by with_unfolding_all rfl)⟩

/-- Claim C4: on a data line whose depth token parses, the number of
emitted samples is the token count past the depth minus the number of
dropped tokens (those failing numeric parsing or lacking a nonempty
catalog curve at their position), and every emitted sample carries the
line depth, the catalog curve of its position, and the parsed value of
its token. -/
theorem claim_C4_sample_count (curves : List String) (l v0 : String)
    (rest : List String) (d : JNum)
    (hsplit : jsSplitWs (jsTrim l) = v0 :: rest)
    (hhash : strStartsWith (jsTrim l) "#" = false)
    (hd : parseFloat v0 = some d) :
    (parseLine curves l).1.length + badCount curves rest = rest.length
    ∧ ∀ s ∈ (parseLine curves l).1,
        s.depth = d ∧ ∃ i, i < rest.length ∧ curves.getD i "" = s.curveName
          ∧ parseFloat (rest.getD i "") = some s.value := by
  rcases rest with _ | ⟨v1, rest2⟩
  · have hnone : parseLine curves l = ([], none) := by
      refine parseLine_none curves l (fun w0 wrest hw => ?_)
      have h2 := hsplit.symm.trans hw
      cases h2
      exact Or.inl rfl
    rw [hnone]
    exact ⟨rfl, by intro s hs; exact absurd hs (List.not_mem_nil s)⟩
  · have heq := parseLine_eq curves l v0 v1 rest2 d hsplit hhash hd
    constructor
    · rw [heq]
      exact emitSamples_length curves d (v1 :: rest2) 0
    · intro s hsmem
      rw [heq] at hsmem
      obtain ⟨hd2, _, i, hi, hcn, hv⟩ := emitSamples_mem curves d (v1 :: rest2) 0 s hsmem
      refine ⟨hd2, i, hi, ?_, hv⟩
      simpa using hcn

/-- Witness for claim C4: with a one-curve catalog, the line carrying a
depth and two value tokens emits one sample and drops one token (the
position that has no catalog curve). -/
theorem claim_C4_sample_count_witness :
    (parseLine ["GR"] "100.0 55.2 12.1").1.length + badCount ["GR"] ["55.2", "12.1"] = 2 :=
  (claim_C4_sample_count ["GR"] "100.0 55.2 12.1" "100.0" ["55.2", "12.1"] (JNum.fin 100)
    (by with_unfolding_all rfl) (by with_unfolding_all rfl) (by with_unfolding_all rfl)).1

/-- Claim C5: a data line whose first token fails numeric parsing emits
no sample, raises no error, and leaves the whole parse state unchanged,
so parsing continues with the following lines. -/
theorem claim_C5_unparseable_depth (curves : List String) (l v0 : String)
    (rest : List String) (st : List Sample × JNum × JNum) (ls : List String)
    (hsplit : jsSplitWs (jsTrim l) = v0 :: rest)
    (hd : parseFloat v0 = none) :
    parseLine curves l = ([], none)
    ∧ dataFold curves st (l :: ls) = dataFold curves st ls := by
  have hnone : parseLine curves l = ([], none) := by
    refine parseLine_none curves l (fun w0 wrest hw => ?_)
    have h2 := hsplit.symm.trans hw
    cases h2
    exact Or.inr hd
  exact ⟨hnone, dataFold_skip curves st l ls hnone⟩

/-- Witness for claim C5 on the scenario line abc 1 2. -/
theorem claim_C5_unparseable_depth_witness :
    parseLine ["GR"] "abc 1 2" = ([], none)
    ∧ dataFold ["GR"] ([], JNum.posInf, JNum.negInf) ["abc 1 2", "5 6"]
        = dataFold ["GR"] ([], JNum.posInf, JNum.negInf) ["5 6"] :=
  claim_C5_unparseable_depth ["GR"] "abc 1 2" "abc" ["1", "2"]
    ([], JNum.posInf, JNum.negInf) ["5 6"]
    (by with_unfolding_all rfl) (by with_unfolding_all rfl)

/-- Claim C6: the data query returns only rows of the requested file and
curves within the inclusive depth bounds, sorted by depth ascending;
every stored row meeting the filter — including one whose depth equals a
bound exactly — appears in the result; and a requested curve name absent
from the store yields no rows and no error. -/
theorem claim_C6_query_semantics (store : List Row) (fid : Nat) (names : List String)
    (dmin dmax : JNum) :
    (∀ r ∈ querySamples store fid names dmin dmax,
        r.fileId = fid ∧ r.curveName ∈ names
          ∧ jle dmin r.depth = true ∧ jle r.depth dmax = true)
    ∧ List.Sorted byDepth (querySamples store fid names dmin dmax)
    ∧ (∀ r ∈ store, r.fileId = fid → r.curveName ∈ names →
        jle dmin r.depth = true → jle r.depth dmax = true →
        r ∈ querySamples store fid names dmin dmax)
    ∧ (∀ c : String, (∀ r ∈ store, r.curveName ≠ c) →
        ∀ r ∈ querySamples store fid names dmin dmax, r.curveName ≠ c) := by
  refine ⟨?_, ?_, ?_, ?_⟩
  · intro r hr
    rw [querySamples, List.mem_insertionSort, List.mem_filter] at hr
    obtain ⟨_, hpred⟩ := hr
    simp only [Bool.and_eq_true, beq_iff_eq] at hpred
    obtain ⟨⟨⟨hfid, hname⟩, hlo⟩, hhi⟩ := hpred
    refine ⟨hfid, ?_, hlo, hhi⟩
    simpa using hname
  · exact List.sorted_insertionSort byDepth _
  · intro r hr hfid hname hlo hhi
    rw [querySamples, List.mem_insertionSort, List.mem_filter]
    refine ⟨hr, ?_⟩
    simp only [Bool.and_eq_true, beq_iff_eq]
    exact ⟨⟨⟨hfid, by simpa using hname⟩, hlo⟩, hhi⟩
  · intro c habsent r hr
    rw [querySamples, List.mem_insertionSort, List.mem_filter] at hr
    exact habsent r hr.1

/-- Witness for claim C6: a row whose depth equals the lower bound
exactly is returned. -/
theorem claim_C6_query_semantics_witness :
    (⟨1, JNum.fin 50, "GR", JNum.fin 7⟩ : Row) ∈
      querySamples [⟨1, JNum.fin 50, "GR", JNum.fin 7⟩] 1 ["GR"]
        (JNum.fin 50) (JNum.fin 150) :=
  (claim_C6_query_semantics [⟨1, JNum.fin 50, "GR", JNum.fin 7⟩] 1 ["GR"]
      (JNum.fin 50) (JNum.fin 150)).2.2.1
    ⟨1, JNum.fin 50, "GR", JNum.fin 7⟩ (by simp) rfl (by simp)
    (of_decide_eq_true (by with_unfolding_all rfl))
    (of_decide_eq_true (by with_unfolding_all rfl))

/-- Claim C7, counterexample: a line starting with the marker ~DATA is
claimed to switch the parser into the data state, but the source only
recognizes markers starting with ~A (which also covers ~ASCII): the
marker test rejects ~DATA, and the data-start scan over a file whose
only marker is ~DATA finds nothing and reports the default index 0
instead of the index 1 after the marker. -/
theorem claim_C7_counterexample :
    isDataStartLine "~DATA" = false ∧ findDataStart ["~DATA", "9 9"] = 0 := by
  decide

/-- Claim C7, amended: a line whose trimmed form starts with ~A — which
includes the ~ASCII marker — does switch the scan into the data section:
when it is the first such line, data parsing starts right after it. -/
theorem claim_C7_amended (pre : List String) (l : String) (post : List String)
    (hpre : ∀ p ∈ pre, isDataStartLine p = false) (hl : isDataStartLine l = true) :
    findDataStart (pre ++ l :: post) = pre.length + 1 := by
  have h := findDataStartAux_append l post hl pre 0 hpre
  rw [findDataStart, h]
  omega

/-- Witness for the amended claim C7 at a concrete file shape. -/
theorem claim_C7_amended_witness : findDataStart ["~C", "~ASCII", "1 2"] = 2 :=
  claim_C7_amended ["~C"] "~ASCII" ["1 2"] (by decide) (by decide)

/-- Claim C8, counterexample: a header candidate whose name is empty
after normalization is claimed to be silently skipped, but the source
pushes the normalized name without re-checking emptiness: the token
consisting of two dots normalizes to the empty string and the empty
string appears in the returned curve sequence. -/
theorem claim_C8_counterexample : discoverCurves [".. x"] = [""] := by decide

/-- Claim C8, amended: an empty-normalized candidate does enter the
curve catalog, but the data emitter never associates a sample with the
empty name, because the positional truthiness check skips positions
whose catalog entry is absent or empty: no parsed sample ever carries an
empty curve name. -/
theorem claim_C8_amended (content : String) :
    ∀ s ∈ (parseLASContent content).data, s.curveName ≠ "" := by
  intro s hs
  have hdata : (parseLASContent content).data =
      (dataFold (discoverCurves (splitLines content)) ([], JNum.posInf, JNum.negInf)
        ((splitLines content).drop (findDataStart (splitLines content)))).1 := rfl
  rw [hdata] at hs
  refine dataFold_no_empty_name _ _ _ ?_ s hs
  intro x hx
  exact absurd hx (List.not_mem_nil x)

/-- Witness for the amended claim C8 at a concrete file. -/
theorem claim_C8_amended_witness :
    (Sample.mk (JNum.fin 1) "GRAPI" (JNum.fin 2)).curveName ≠ "" :=
  claim_C8_amended "GR.API u\n~A\n1 2" ⟨JNum.fin 1, "GRAPI", JNum.fin 2⟩ (by
    have h : (parseLASContent "GR.API u\n~A\n1 2").data
        = [⟨JNum.fin 1, "GRAPI", JNum.fin 2⟩] := by with_unfolding_all rfl
    rw [h]
    exact List.mem_singleton_self _)

/-- Claim C9: when no data line has a parseable depth token, the depth
range keeps its initial sentinels positive and negative infinity — an
empty range whose minimum exceeds its maximum — and in particular does
not default to the finite value zero. -/
theorem claim_C9_empty_depth_range (content : String)
    (h : ∀ l ∈ (splitLines content).drop (findDataStart (splitLines content)),
        (parseLine (discoverCurves (splitLines content)) l).2 = none) :
    (parseLASContent content).minDepth = JNum.posInf
    ∧ (parseLASContent content).maxDepth = JNum.negInf
    ∧ (parseLASContent content).minDepth ≠ JNum.fin 0
    ∧ (parseLASContent content).maxDepth ≠ JNum.fin 0 := by
  have hfold := dataFold_none (discoverCurves (splitLines content))
    ((splitLines content).drop (findDataStart (splitLines content)))
    ([], JNum.posInf, JNum.negInf) h
  have hmin : (parseLASContent content).minDepth = JNum.posInf := by
    show (dataFold (discoverCurves (splitLines content)) ([], JNum.posInf, JNum.negInf)
        ((splitLines content).drop (findDataStart (splitLines content)))).2.1 = JNum.posInf
    rw [hfold]
  have hmax : (parseLASContent content).maxDepth = JNum.negInf := by
    show (dataFold (discoverCurves (splitLines content)) ([], JNum.posInf, JNum.negInf)
        ((splitLines content).drop (findDataStart (splitLines content)))).2.2 = JNum.negInf
    rw [hfold]
  refine ⟨hmin, hmax, ?_, ?_⟩
  · rw [hmin]
    intro hx
    exact JNum.noConfusion hx
  · rw [hmax]
    intro hx
    exact JNum.noConfusion hx

/-- Witness for claim C9 on a file whose only data line has an
unparseable depth. -/
theorem claim_C9_empty_depth_range_witness :
    (parseLASContent "~A\nabc 1 2").minDepth = JNum.posInf
    ∧ (parseLASContent "~A\nabc 1 2").maxDepth = JNum.negInf
    ∧ (parseLASContent "~A\nabc 1 2").minDepth ≠ JNum.fin 0
    ∧ (parseLASContent "~A\nabc 1 2").maxDepth ≠ JNum.fin 0 :=
  claim_C9_empty_depth_range "~A\nabc 1 2" (of_decide_eq_true (by with_unfolding_all rfl))

/-- Claim C10: a header line with exactly one whitespace token is never
accepted as a curve-definition candidate — the candidate test requires
at least two tokens — so such a line contributes nothing to the scan. -/
theorem claim_C10_single_token (l : String) (ls acc : List String)
    (h : (jsSplitWs (jsTrim l)).length = 1) :
    headerCandidate (jsTrim l) = none
    ∧ (isDataStartLine l = false →
        discoverCurvesGo (l :: ls) acc = discoverCurvesGo ls acc) := by
  have hcand : headerCandidate (jsTrim l) = none := by
    unfold headerCandidate
    split
    · rcases hsp : jsSplitWs (jsTrim l) with _ | ⟨p0, _ | ⟨p1, r2⟩⟩
      · rfl
      · rfl
      · rw [hsp] at h
        simp at h
    · rfl
  refine ⟨hcand, fun hmark => ?_⟩
  show (if strStartsWith (jsTrim l) "~A" || strStartsWith (jsTrim l) "~ASCII" then acc
        else match headerCandidate (jsTrim l) with
          | some name =>
            if name ∈ acc then discoverCurvesGo ls acc
            else discoverCurvesGo ls (acc ++ [name])
          | none => discoverCurvesGo ls acc) = discoverCurvesGo ls acc
  have hmark2 : (strStartsWith (jsTrim l) "~A" || strStartsWith (jsTrim l) "~ASCII") = false :=
    hmark
  rw [hmark2, if_neg (by simp), hcand]

/-- Witness for claim C10 at the one-token line GR.API. -/
theorem claim_C10_single_token_witness :
    headerCandidate (jsTrim "GR.API") = none
    ∧ (isDataStartLine "GR.API" = false →
        discoverCurvesGo ["GR.API"] [] = discoverCurvesGo [] []) :=
  claim_C10_single_token "GR.API" [] [] (by decide)

end WellLog
